import Mathlib

/-!
Verification development for the Delivery Intelligence / Trend Analysis
engine of `trendAnalyzer.js` (function `generateTrendAnalysis` and its
helpers `classifyTNHealth`, `calculateListGrade`, `calculateEntropy`).

Modelling conventions (shallow embedding of the JavaScript source):

* JS strings are Lean `String`s; a missing/`undefined` field is the empty
  string (both are falsy in the JS truthiness tests the code performs).
  `String.prototype.trim` and `String.prototype.toLowerCase` are modelled
  by `jsTrim` / `jsToLower`, defined character-wise so that they agree
  with JS on the ASCII data the analyzer handles.
* `new Date(s)` is an external platform facility; it is modelled by a
  parameter `dp : String → Option DateInfo` supplied to the pipeline
  (`none` plays the role of an Invalid Date / NaN time value).  A
  `DateInfo` carries the epoch milliseconds together with the local
  `getHours()` / `getDay()` values the Date object would report.
* JS numbers are modelled exactly: counters as `Nat`, epoch milliseconds
  as `Int`, and derived rates as `Rat` (rationals built with `mkRat`,
  which is the exact value of the corresponding JS division).  The
  float/exact-rational distinction is immaterial at the small constants
  (0.1, 0.2, 0.25, …) the analyzer compares against.
* `Array.prototype.sort` with the `a.parsedDate - b.parsedDate`
  comparator is modelled by a stable insertion sort in which any
  comparison involving an Invalid Date counts as "equal" (the JS spec
  maps a NaN comparator result to 0).
* Plain JS objects used as maps are modelled as insertion-ordered
  association lists.
* The variability score mixes Shannon entropies computed with `Math.log2`;
  these are modelled over the reals (`Real.logb 2`), and `Math.round` by
  `round` (both round half away from zero upwards, `⌊x + 1/2⌋`).
-/

/-- JS whitespace for the purposes of `String.prototype.trim` (the source
data only ever contains ASCII whitespace). -/
def jsIsWhitespace (c : Char) : Bool :=
  c = ' ' ∨ c = '\t' ∨ c = '\n' ∨ c = '\r' ∨ c = '\x0b' ∨ c = '\x0c'

/-- Model of `String.prototype.trim`. -/
def jsTrim (s : String) : String :=
  ⟨((s.data.dropWhile jsIsWhitespace).reverse.dropWhile jsIsWhitespace).reverse⟩

/-- Model of `String.prototype.toLowerCase` (ASCII case mapping; the
analyzer only compares against the ASCII literal "successfully delivered"). -/
def jsToLower (s : String) : String :=
  ⟨s.data.map (fun c => if 'A' ≤ c ∧ c ≤ 'Z' then Char.ofNat (c.toNat + 32) else c)⟩

/-- Increment position `i` of a fixed-size histogram (out-of-range
increments, which in JS would create a stray `NaN` property on the array,
leave the 24/7 numbered buckets untouched). -/
def bumpAt : List Nat → Nat → List Nat
  | [], _ => []
  | x :: xs, 0 => (x + 1) :: xs
  | x :: xs, n + 1 => x :: bumpAt xs n

/-- Increment the count stored under `k` in an insertion-ordered
association list (model of `obj[k] = (obj[k] || 0) + 1`). -/
def bumpAssoc : List (String × Nat) → String → List (String × Nat)
  | [], k => [(k, 1)]
  | (k0, v) :: t, k => if k0 = k then (k0, v + 1) :: t else (k0, v) :: bumpAssoc t k

/-- What a valid JS `Date` object reports: epoch milliseconds plus the
`getHours()` and `getDay()` projections. -/
structure DateInfo where
  ms : Int
  hour : Nat
  day : Nat
deriving DecidableEq

/-- A raw CSV/API row as handed to `generateTrendAnalysis`.  The first ten
fields are the JS object's own fields (empty string = absent).  The last
four model the properties the engine itself writes onto the row object
during enrichment (`none` = property not present). -/
structure RawRow where
  number : String
  voapps_result : String
  voapps_timestamp : String
  message_id : String
  message_name : String
  caller_number : String
  caller_number_name : String
  account_id : String
  campaign_id : String
  campaign_name : String
  parsedDate : Option (Option DateInfo)
  voapps_result_normalized : Option String
  isSuccess : Option Bool
  isDeliveryAttempt : Option Bool
deriving DecidableEq

/-- Convenience constructor for an un-enriched row with only the three
validated fields set. -/
def mkRow (num res ts : String) : RawRow :=
  ⟨num, res, ts, "", "", "", "", "", "", "", none, none, none, none⟩

/-- The row validity filter:
`csvRows.filter(row => row.number && row.voapps_result && row.voapps_timestamp)`. -/
def validFilter (r : RawRow) : Bool :=
  r.number ≠ "" ∧ r.voapps_result ≠ "" ∧ r.voapps_timestamp ≠ ""

/-- An enriched row as the engine sees it after the enrichment loop. -/
structure ERow where
  number : String
  result_normalized : String
  isSuccess : Bool
  isDeliveryAttempt : Bool
  parsed : Option DateInfo
  message_id : String
  message_name : String
  caller_number : String
  caller_number_name : String
  account_id : String
  campaign_id : String
  campaign_name : String
deriving DecidableEq

/-- The enrichment computed for one (valid) row, as stored into `ERow`
form: `row.parsedDate = new Date(...)`, `row.voapps_result_normalized =
String(row.voapps_result || '').trim().toLowerCase()`, `row.isSuccess =
(normalized === 'successfully delivered')`, `row.isDeliveryAttempt =
!!(row.voapps_timestamp && row.voapps_timestamp.trim())`. -/
def mkERow (dp : String → Option DateInfo) (r : RawRow) : ERow :=
  let norm := jsToLower (jsTrim r.voapps_result)
  { number := r.number
    result_normalized := norm
    isSuccess := norm = "successfully delivered"
    isDeliveryAttempt := r.voapps_timestamp ≠ "" ∧ jsTrim r.voapps_timestamp ≠ ""
    parsed := dp r.voapps_timestamp
    message_id := r.message_id
    message_name := r.message_name
    caller_number := r.caller_number
    caller_number_name := r.caller_number_name
    account_id := r.account_id
    campaign_id := r.campaign_id
    campaign_name := r.campaign_name }

/-- The state of one input row object after `generateTrendAnalysis`
returns: rows passing the validity filter have had the four enrichment
properties written onto them in place; other rows are untouched. -/
def postRow (dp : String → Option DateInfo) (r : RawRow) : RawRow :=
  if validFilter r then
    let norm := jsToLower (jsTrim r.voapps_result)
    { r with
      parsedDate := some (dp r.voapps_timestamp)
      voapps_result_normalized := some norm
      isSuccess := some (norm = "successfully delivered")
      isDeliveryAttempt := some (decide (r.voapps_timestamp ≠ "" ∧ jsTrim r.voapps_timestamp ≠ "")) }
  else r

/-- The input row collection after a call to the engine (the enrichment
loop mutates exactly the rows that survived the validity filter). -/
def rowsAfter (dp : String → Option DateInfo) (rows : List RawRow) : List RawRow :=
  rows.map (postRow dp)

/-- Stable insertion for the model of `Array.prototype.sort`: `x` goes
after every element strictly before it (per the comparator) and before
the first element that is not. -/
def insertStable {α : Type} (lt : α → α → Bool) (x : α) : List α → List α
  | [] => [x]
  | y :: ys => if lt y x then y :: insertStable lt x ys else x :: y :: ys

/-- Stable comparator sort (model of `Array.prototype.sort(cmp)`; `lt a b`
means the comparator puts `a` strictly before `b`, and a NaN comparator
result counts as "equal" per the ECMAScript SortCompare rule). -/
def sortJS {α : Type} (lt : α → α → Bool) : List α → List α
  | [] => []
  | x :: xs => insertStable lt x (sortJS lt xs)

/-- Comparator `(a, b) => a.parsedDate - b.parsedDate`: `a` strictly
before `b` iff both Dates are valid and `a` is strictly earlier (an
invalid Date gives a NaN difference, treated as 0). -/
def tsLt (a b : ERow) : Bool :=
  match a.parsed, b.parsed with
  | some x, some y => x.ms < y.ms
  | _, _ => false

/-- The enriched, sorted row list the per-number fold runs over. -/
def engineRows (dp : String → Option DateInfo) (csvRows : List RawRow) : List ERow :=
  sortJS tsLt ((csvRows.filter validFilter).map (mkERow dp))

/-- `classifyTNHealth` from trendAnalyzer.js, verbatim rule for rule.
`mkRat 1 10` etc. are the exact values of the JS literals 0.1, 0.25, 0.2. -/
def classifyTNHealth (successRate : ℚ) (consecutiveFailures totalAttempts : Nat)
    (recentSuccess14Days : Bool) : String :=
  if successRate < mkRat 1 10 ∧ 4 ≤ consecutiveFailures then "Toxic"
  else if 6 ≤ consecutiveFailures then "Toxic"
  else if 5 ≤ totalAttempts ∧ successRate = 0 then "Toxic"
  else if successRate < mkRat 1 4 ∧ 2 ≤ consecutiveFailures then "Degrading"
  else if successRate < mkRat 1 5 ∧ recentSuccess14Days = false then "Degrading"
  else if 3 ≤ consecutiveFailures then "Degrading"
  else "Healthy"

/-- `calculateListGrade` from trendAnalyzer.js. -/
def calculateListGrade (healthyPct degradingPct toxicPct neverDeliveredPct : ℚ) : String :=
  if 80 ≤ healthyPct ∧ toxicPct < 5 ∧ neverDeliveredPct < 10 then "A"
  else if 60 ≤ healthyPct ∧ toxicPct < 10 ∧ neverDeliveredPct < 20 then "B"
  else if 40 ≤ healthyPct ∧ toxicPct < 20 then "C"
  else "D"

/-- The seven-rule decision table exactly as the specification states it
(rules 1–6 with their guards; rule 7 is the default).  Used only to state
claim C1, which compares the source function against first-match
evaluation of this table. -/
def c1Rules : List ((ℚ → Nat → Nat → Bool → Bool) × String) :=
  [ (fun sr cf _ _ => decide (sr < mkRat 1 10) && decide (4 ≤ cf), "Toxic")
  , (fun _ cf _ _ => decide (6 ≤ cf), "Toxic")
  , (fun sr _ ta _ => decide (5 ≤ ta) && decide (sr = 0), "Toxic")
  , (fun sr cf _ _ => decide (sr < mkRat 1 4) && decide (2 ≤ cf), "Degrading")
  , (fun sr _ _ rs => decide (sr < mkRat 1 5) && !rs, "Degrading")
  , (fun _ cf _ _ => decide (3 ≤ cf), "Degrading") ]

/-- First-match-wins evaluation of the specification's rule table. -/
def specClassifyC1 (sr : ℚ) (cf ta : Nat) (rs : Bool) : String :=
  match c1Rules.find? (fun p => p.1 sr cf ta rs) with
  | some p => p.2
  | none => "Healthy"

/-- The attempt record pushed onto `nd.attempts` for every processed row
(lines 545–560 of trendAnalyzer.js).  `hour`/`dayOfWeek` are
`row.parsedDate.getHours()`/`.getDay()`, which are NaN (here `none`) for an
Invalid Date.  `attemptIndex` is the value of the per-number counter at
the moment of the attempt (0 for non-delivery rows). -/
structure Att where
  timestamp : Option DateInfo
  result : String
  isSuccess : Bool
  isDeliveryAttempt : Bool
  hour : Option Nat
  dayOfWeek : Option Nat
  message_id : String
  message_name : String
  caller_number : String
  caller_number_name : String
  account_id : String
  campaign_id : String
  campaign_name : String
  attemptIndex : Nat
deriving DecidableEq

/-- Build the attempt record for row `r` carrying recorded index `idx`. -/
def mkAtt (r : ERow) (idx : Nat) : Att :=
  { timestamp := r.parsed
    result := r.result_normalized
    isSuccess := r.isSuccess
    isDeliveryAttempt := r.isDeliveryAttempt
    hour := r.parsed.map (·.hour)
    dayOfWeek := r.parsed.map (·.day)
    message_id := r.message_id
    message_name := r.message_name
    caller_number := r.caller_number
    caller_number_name := r.caller_number_name
    account_id := r.account_id
    campaign_id := r.campaign_id
    campaign_name := r.campaign_name
    attemptIndex := idx }

/-- The per-number accumulator (`numberData[num]`).
`lastSuccessTimestamp : Option (Option DateInfo)`: outer `none` = never
set (JS `null`), inner `none` = an Invalid Date object was stored. -/
structure NumberData where
  number : String
  attempts : List Att
  attemptIndex : Nat
  consecutiveFailures : Nat
  totalAttempts : Nat
  successCount : Nat
  unsuccessfulCount : Nat
  lastSuccessTimestamp : Option (Option DateInfo)
  messageIds : List (String × Nat)
  callerNumbers : List (String × Nat)
  accountIds : List (String × Nat)
  hourCounts : List Nat
  dayOfWeekCounts : List Nat
  backToBackIdentical : Nat
  lastMessageId : Option String
deriving DecidableEq

/-- Fresh accumulator for a number seen for the first time. -/
def initND (num : String) : NumberData :=
  { number := num
    attempts := []
    attemptIndex := 0
    consecutiveFailures := 0
    totalAttempts := 0
    successCount := 0
    unsuccessfulCount := 0
    lastSuccessTimestamp := none
    messageIds := []
    callerNumbers := []
    accountIds := []
    hourCounts := List.replicate 24 0
    dayOfWeekCounts := List.replicate 7 0
    backToBackIdentical := 0
    lastMessageId := none }

/-- One iteration of the per-number fold (lines 536–597 of
trendAnalyzer.js), applied to the row's accumulator:
1. delivery attempts bump `totalAttempts` and `attemptIndex`;
2. the attempt record is pushed (recorded index = current counter, or 0);
3. message/caller/account usage is tracked unconditionally (with the
   "Unknown" fallback), including the back-to-back identical check;
4. hour/day histograms are bumped for delivery attempts only (an Invalid
   Date yields NaN indices, which touch none of the numbered buckets);
5. a Success resets `consecutiveFailures` and `attemptIndex`, bumps
   `successCount` and stores `lastSuccessTimestamp`; otherwise a delivery
   attempt bumps `unsuccessfulCount` and `consecutiveFailures`. -/
def step (nd : NumberData) (r : ERow) : NumberData :=
  let ta := if r.isDeliveryAttempt then nd.totalAttempts + 1 else nd.totalAttempts
  let ai := if r.isDeliveryAttempt then nd.attemptIndex + 1 else nd.attemptIndex
  let att := mkAtt r (if r.isDeliveryAttempt then ai else 0)
  let msgId := if r.message_id = "" then "Unknown" else r.message_id
  let callerNum := if r.caller_number = "" then "Unknown" else r.caller_number
  let accountId := if r.account_id = "" then "Unknown" else r.account_id
  { number := nd.number
    attempts := nd.attempts ++ [att]
    totalAttempts := ta
    messageIds := bumpAssoc nd.messageIds msgId
    backToBackIdentical :=
      if nd.lastMessageId = some msgId then nd.backToBackIdentical + 1
      else nd.backToBackIdentical
    lastMessageId := some msgId
    callerNumbers := bumpAssoc nd.callerNumbers callerNum
    accountIds := bumpAssoc nd.accountIds accountId
    hourCounts :=
      if r.isDeliveryAttempt then
        match r.parsed with
        | some d => bumpAt nd.hourCounts d.hour
        | none => nd.hourCounts
      else nd.hourCounts
    dayOfWeekCounts :=
      if r.isDeliveryAttempt then
        match r.parsed with
        | some d => bumpAt nd.dayOfWeekCounts d.day
        | none => nd.dayOfWeekCounts
      else nd.dayOfWeekCounts
    attemptIndex := if r.isSuccess then 0 else ai
    successCount := if r.isSuccess then nd.successCount + 1 else nd.successCount
    unsuccessfulCount :=
      if r.isSuccess = false ∧ r.isDeliveryAttempt then nd.unsuccessfulCount + 1
      else nd.unsuccessfulCount
    consecutiveFailures :=
      if r.isSuccess then 0
      else if r.isDeliveryAttempt then nd.consecutiveFailures + 1
      else nd.consecutiveFailures
    lastSuccessTimestamp := if r.isSuccess then some r.parsed else nd.lastSuccessTimestamp }

/-- The accumulator a number ends up with after folding its chronological
row subsequence. -/
def foldProfile (num : String) (rows : List ERow) : NumberData :=
  rows.foldl step (initND num)

/-- Update the insertion-ordered `numberData` map at key `num`, creating a
fresh accumulator on first sight. -/
def upsert (l : List (String × NumberData)) (num : String) (f : NumberData → NumberData) :
    List (String × NumberData) :=
  match l with
  | [] => [(num, f (initND num))]
  | (k, v) :: t => if k = num then (k, f v) :: t else (k, v) :: upsert t num f

/-- The whole `numberData` map after the single-pass fold over the sorted
rows. -/
def buildNumberData (rows : List ERow) : List (String × NumberData) :=
  rows.foldl (fun acc r => upsert acc r.number (fun nd => step nd r)) []

/-- The engine's `numberData` for a raw input row list. -/
def numberDataOf (dp : String → Option DateInfo) (csvRows : List RawRow) :
    List (String × NumberData) :=
  buildNumberData (engineRows dp csvRows)

/-- Dataset-maximum timestamp in epoch milliseconds (the loop skipping
rows whose `parsedDate` is invalid). -/
def maxMsOf (rows : List ERow) : Option Int :=
  rows.foldl
    (fun acc r =>
      match r.parsed with
      | some d =>
        match acc with
        | none => some d.ms
        | some m => if m < d.ms then some d.ms else some m
      | none => acc)
    none

/-- `fourteenDaysAgo`: 14 days before the dataset maximum (JS `null` when
there is no valid timestamp at all). -/
def fourteenDaysAgoOf (rows : List ERow) : Option Int :=
  (maxMsOf rows).map (fun m => m - 14 * 24 * 60 * 60 * 1000)

/-- One entry of `numberSummaryArray` (restricted to the fields the
analysis itself consumes downstream; the display-only diversity fields are
modelled separately by `variabilityScore` and friends). -/
structure Summary where
  number : String
  totalAttempts : Nat
  successful : Nat
  unsuccessful : Nat
  successRate : ℚ
  attemptIndex : Nat
  consecutiveFailures : Nat
  tnHealth : String
  neverDelivered : Bool
  backToBackIdentical : Nat
deriving DecidableEq

/-- Summarize one number's accumulator (lines 764–887): `successRate =
successCount / totalAttempts` (0 when no attempts), `recentSuccess` iff a
valid last-success Date lies within 14 days of the dataset maximum (an
invalid stored Date compares as NaN, hence false), and the TN health from
`classifyTNHealth` — computed for every number, regardless of
`totalAttempts`. -/
def summarize (fourteen : Option Int) (nd : NumberData) : Summary :=
  let successRate : ℚ :=
    if 0 < nd.totalAttempts then mkRat nd.successCount nd.totalAttempts else 0
  let recent : Bool :=
    match nd.lastSuccessTimestamp, fourteen with
    | some (some t), some f => f ≤ t.ms
    | _, _ => false
  { number := nd.number
    totalAttempts := nd.totalAttempts
    successful := nd.successCount
    unsuccessful := nd.unsuccessfulCount
    successRate := successRate
    attemptIndex := nd.attemptIndex
    consecutiveFailures := nd.consecutiveFailures
    tnHealth := classifyTNHealth successRate nd.consecutiveFailures nd.totalAttempts recent
    neverDelivered := nd.successCount = 0
    backToBackIdentical := nd.backToBackIdentical }

/-- `numberSummaryArray` in `numberData` insertion order (the engine later
re-sorts it by `totalAttempts` descending; all counts are order
independent). -/
def summariesOf (dp : String → Option DateInfo) (csvRows : List RawRow) : List Summary :=
  let rows := engineRows dp csvRows
  (buildNumberData rows).map (fun e => summarize (fourteenDaysAgoOf rows) e.2)

/-- `healthyCount` (incremented once per summary with health "Healthy"). -/
def healthyCountOf (dp : String → Option DateInfo) (csvRows : List RawRow) : Nat :=
  (summariesOf dp csvRows).countP (fun s => s.tnHealth = "Healthy")

/-- `degradingCount`. -/
def degradingCountOf (dp : String → Option DateInfo) (csvRows : List RawRow) : Nat :=
  (summariesOf dp csvRows).countP (fun s => s.tnHealth = "Degrading")

/-- `toxicCount`. -/
def toxicCountOf (dp : String → Option DateInfo) (csvRows : List RawRow) : Nat :=
  (summariesOf dp csvRows).countP (fun s => s.tnHealth = "Toxic")

/-- `neverDeliveredCount` (`nd.successCount === 0`). -/
def neverDeliveredCountOf (dp : String → Option DateInfo) (csvRows : List RawRow) : Nat :=
  (summariesOf dp csvRows).countP (fun s => s.neverDelivered)

/-- `(healthyCount / uniqueNumbers) * 100` as an exact rational
(`mkRat _ 0 = 0` stands in for the JS `NaN` when there are no numbers;
`calculateListGrade` returns "D" under either reading). -/
def pctOf (count uniqueNumbers : Nat) : ℚ := mkRat (count * 100) uniqueNumbers

/-- A row of the consecutive-unsuccessful runs table.  `runStart`/`runEnd`
are the boundary Date objects (outer `none` = JS `undefined`, inner `none`
= Invalid Date); `spanDays = none` models a NaN span (an invalid boundary
Date), which fails every `>=` test. -/
structure Run where
  number : String
  count : Nat
  runStart : Option (Option DateInfo)
  runEnd : Option (Option DateInfo)
  spanDays : Option ℚ
  tnHealth : String
deriving DecidableEq

/-- `runStart && runEnd ? (runEnd - runStart) / 86400000 : 0` — note a
Date object is truthy even when invalid, so the 0 fallback only fires
when a boundary is `undefined` (empty run slice). -/
def spanDaysOf (runStart runEnd : Option (Option DateInfo)) : Option ℚ :=
  match runStart, runEnd with
  | some a, some b =>
    match a, b with
    | some x, some y => some (mkRat (y.ms - x.ms) 86400000)
    | _, _ => none
  | _, _ => some 0

/-- `spanDays >= minRunSpanDays` (false on NaN). -/
def spanGe (minS : ℚ) : Option ℚ → Bool
  | some q => minS ≤ q
  | none => false

/-- Build the emitted run record from a run's attempt list. -/
def mkRun (num health : String) (run : List Att) : Run :=
  let rs := run.head?.map (·.timestamp)
  let re := run.getLast?.map (·.timestamp)
  { number := num
    count := run.length
    runStart := rs
    runEnd := re
    spanDays := spanDaysOf rs re
    tnHealth := health }

/-- The consecutive-runs scan for one number (lines 909–953): walk the
attempts, growing `cur` over non-Success attempts; at each Success emit
the finished run iff `minConsecUnsuccessful ≤ length` AND
(`spanDays ≥ minRunSpanDays` OR `length ≥ 6`), then reset; after the walk
the still-open trailing run is emitted iff `minConsecUnsuccessful ≤
length` — with no span condition. -/
def runScan (minC : Nat) (minS : ℚ) (num health : String) :
    List Att → List Att → List Run
  | cur, [] => if minC ≤ cur.length then [mkRun num health cur] else []
  | cur, a :: rest =>
    if a.isSuccess = false then runScan minC minS num health (cur ++ [a]) rest
    else
      (if minC ≤ cur.length ∧ (spanGe minS (mkRun num health cur).spanDays ∨ 6 ≤ cur.length)
        then [mkRun num health cur] else [])
      ++ runScan minC minS num health [] rest

/-- Scan-based runs for one `numberData` entry (`tnHealth` looked up from
the number's summary row, "Unknown" if absent). -/
def runsForNumber (minC : Nat) (minS : ℚ) (sums : List Summary)
    (e : String × NumberData) : List Run :=
  let health :=
    match sums.find? (fun n => n.number = e.1) with
    | some ns => ns.tnHealth
    | none => "Unknown"
  runScan minC minS e.1 health [] e.2.attempts

/-- The second pass (lines 957–976): every number whose current
`consecutiveFailures` counter reaches the threshold and that has no run
emitted yet gets a counter-based run over its last `consecutiveFailures`
attempts. -/
def unionPass (minC : Nat) (ndl : List (String × NumberData)) (sums : List Summary)
    (runs0 : List Run) : List Run :=
  sums.foldl
    (fun acc ns =>
      if minC ≤ ns.consecutiveFailures ∧ (acc.find? (fun r => r.number = ns.number)).isNone then
        let nd := (ndl.lookup ns.number).getD (initND ns.number)
        let recent := nd.attempts.drop (nd.attempts.length - ns.consecutiveFailures)
        let rs := recent.head?.map (·.timestamp)
        let re := recent.getLast?.map (·.timestamp)
        acc ++ [{ number := ns.number
                  count := ns.consecutiveFailures
                  runStart := rs
                  runEnd := re
                  spanDays := spanDaysOf rs re
                  tnHealth := ns.tnHealth }]
      else acc)
    runs0

/-- One bucket of the retry decay curve. -/
structure DecayBucket where
  attemptIndex : String
  total : Nat
  successful : Nat
  probability : ℚ
deriving DecidableEq

/-- All attempt records across all numbers, in map order. -/
def allAttempts (ndl : List (String × NumberData)) : List Att :=
  (ndl.map (fun e => e.2.attempts)).flatten

/-- Delivery attempts whose recorded index, capped at 10, lands in bucket `i`. -/
def bucketTotal (l : List Att) (i : Nat) : Nat :=
  l.countP (fun a => a.isDeliveryAttempt && decide (min a.attemptIndex 10 = i))

/-- Successful delivery attempts in bucket `i`. -/
def bucketSuccessful (l : List Att) (i : Nat) : Nat :=
  l.countP (fun a => a.isDeliveryAttempt && a.isSuccess && decide (min a.attemptIndex 10 = i))

/-- The decay curve (lines 607–637): ten buckets 1..10, the last labelled
"10+", `probability = successful / total` (0 when the bucket is empty). -/
def decayOf (ndl : List (String × NumberData)) : List DecayBucket :=
  (List.range 10).map (fun k =>
    let i := k + 1
    let tot := bucketTotal (allAttempts ndl) i
    let suc := bucketSuccessful (allAttempts ndl) i
    { attemptIndex := if i = 10 then "10+" else toString i
      total := tot
      successful := suc
      probability := if 0 < tot then mkRat suc tot else 0 })

/-- Shannon entropy of a histogram (`calculateEntropy`), over the reals. -/
noncomputable def calculateEntropy (distribution : List Nat) : ℝ :=
  let total := distribution.sum
  if total = 0 then 0
  else
    (distribution.map (fun val =>
      if 0 < val then -(((val : ℝ) / total) * Real.logb 2 ((val : ℝ) / total)) else 0)).sum

/-- The `topMsgCount`-style maximum of an occurrence map (loop with `>`,
starting from 0). -/
def topCount (l : List (String × Nat)) : Nat :=
  l.foldl (fun b p => if b < p.2 then p.2 else b) 0

/-- The variability score (lines 783–845): message/caller diversity from
top-share, normalized day and hour entropies, back-to-back-repeat ratio,
combined 30/20/25/15/10, rounded, clamped to [0, 100] — or the fixed
neutral 50 when the number does not have more than one delivery attempt. -/
noncomputable def variabilityScore (nd : NumberData) : ℤ :=
  let topMsgPct : ℝ :=
    if 0 < nd.totalAttempts then (topCount nd.messageIds : ℝ) / nd.totalAttempts else 0
  let topCallerPct : ℝ :=
    if 0 < nd.totalAttempts then (topCount nd.callerNumbers : ℝ) / nd.totalAttempts else 0
  let dayEntropyNormalized : ℝ :=
    if 0 < Real.logb 2 7 then calculateEntropy nd.dayOfWeekCounts / Real.logb 2 7 else 0
  let hourEntropyNormalized : ℝ :=
    if 0 < Real.logb 2 24 then calculateEntropy nd.hourCounts / Real.logb 2 24 else 0
  let msgDiversityScore : ℝ :=
    if 1 < nd.messageIds.length then (1 - topMsgPct) * 100 else 0
  let callerDiversityScore : ℝ :=
    if 1 < nd.callerNumbers.length then (1 - topCallerPct) * 100 else 0
  let backToBackRatio : ℝ :=
    if 1 < nd.totalAttempts then
      (nd.backToBackIdentical : ℝ) / ((nd.totalAttempts : ℝ) - 1)
    else 0
  if 1 < nd.totalAttempts then
    max 0 (min 100 (round
      (msgDiversityScore * 0.30 + callerDiversityScore * 0.20 +
        dayEntropyNormalized * 100 * 0.25 + hourEntropyNormalized * 100 * 0.15 +
        (1 - backToBackRatio) * 100 * 0.10)))
  else 50

/-- The structured analysis data assembled by `generateTrendAnalysis`
(the parts ahead of the workbook-formatting code, which is an external
reporting concern). -/
structure AnalysisResult where
  summaries : List Summary
  decayCurve : List DecayBucket
  consecRuns : List Run
  healthyCount : Nat
  degradingCount : Nat
  toxicCount : Nat
  neverDeliveredCount : Nat
  uniqueNumbers : Nat
  listGrade : String
deriving DecidableEq

/-- The analysis pipeline of `generateTrendAnalysis` (trendAnalyzer.js
lines 406–979): the only fatal failure is `csvRows.length === 0`; after
that, rows failing the validity filter are silently dropped and the
engine always runs to completion. -/
def generateTrendAnalysis (dp : String → Option DateInfo) (csvRows : List RawRow)
    (minC : Nat) (minS : ℚ) : Except String AnalysisResult :=
  if csvRows.length = 0 then .error "No data found in CSV input"
  else
    let rows := engineRows dp csvRows
    let ndl := buildNumberData rows
    let sums0 := (buildNumberData rows).map (fun e => summarize (fourteenDaysAgoOf rows) e.2)
    let sums := sortJS (fun a b => b.totalAttempts < a.totalAttempts) sums0
    let h := sums0.countP (fun s => s.tnHealth = "Healthy")
    let d := sums0.countP (fun s => s.tnHealth = "Degrading")
    let t := sums0.countP (fun s => s.tnHealth = "Toxic")
    let nv := sums0.countP (fun s => s.neverDelivered)
    let u := ndl.length
    let runs := sortJS (fun a b => b.count < a.count)
      (unionPass minC ndl sums ((ndl.map (runsForNumber minC minS sums)).flatten))
    .ok
      { summaries := sums
        decayCurve := decayOf ndl
        consecRuns := runs
        healthyCount := h
        degradingCount := d
        toxicCount := t
        neverDeliveredCount := nv
        uniqueNumbers := u
        listGrade := calculateListGrade (pctOf h u) (pctOf d u) (pctOf t u) (pctOf nv u) }

/-- Constructor test for `Except` (`true` iff the analysis succeeded). -/
def exceptIsOk : Except String AnalysisResult → Bool
  | .ok _ => true
  | .error _ => false

/-- Specification-side segmentation of an attempt list: the maximal
non-Success segments terminated by a Success (interior runs, in order)
and the still-open trailing segment. -/
def segsAux : List Att → List Att → List (List Att) × List Att
  | cur, [] => ([], cur)
  | cur, a :: rest =>
    if a.isSuccess = false then segsAux (cur ++ [a]) rest
    else (cur :: (segsAux [] rest).1, (segsAux [] rest).2)

/-- The maximal open non-Success suffix of a stored attempt list. -/
def attTrailing (l : List Att) : List Att :=
  (l.reverse.takeWhile (fun a => !a.isSuccess)).reverse

/-- A failed delivery-attempt record (all four attempts of the
counterexample share one timestamp, so the run spans 0 days). -/
def failAtt : Att :=
  { timestamp := some ⟨0, 10, 1⟩
    result := "unsuccessful delivery attempt"
    isSuccess := false
    isDeliveryAttempt := true
    hour := some 10
    dayOfWeek := some 1
    message_id := "m1"
    message_name := ""
    caller_number := "c1"
    caller_number_name := ""
    account_id := "a1"
    campaign_id := ""
    campaign_name := ""
    attemptIndex := 1 }

/-- The suffix of a row list strictly after its most recent Success (the
whole list when no Success has occurred). -/
def afterLastSuccess (l : List ERow) : List ERow :=
  (l.reverse.takeWhile (fun r => !r.isSuccess)).reverse

/-- The count of delivery attempts since the most recent Success (or
since the start, if none). -/
def deliverySince (l : List ERow) : Nat :=
  (afterLastSuccess l).countP (fun r => r.isDeliveryAttempt)

/-- The attempt record `step` appends for row `r` from state `nd`. -/
def stepAtt (nd : NumberData) (r : ERow) : Att :=
  mkAtt r (if r.isDeliveryAttempt then nd.attemptIndex + 1 else 0)

/-- An enriched Success row (delivery attempt at epoch 0). -/
def successERow : ERow :=
  { number := "5551234567"
    result_normalized := "successfully delivered"
    isSuccess := true
    isDeliveryAttempt := true
    parsed := some ⟨0, 9, 2⟩
    message_id := "m1"
    message_name := ""
    caller_number := "c1"
    caller_number_name := ""
    account_id := "a1"
    campaign_id := ""
    campaign_name := "" }

/-- An enriched failed-delivery row one day later. -/
def failERow : ERow :=
  { successERow with
    result_normalized := "unsuccessful delivery attempt"
    isSuccess := false
    parsed := some ⟨86400000, 9, 3⟩ }

/-- A date-parse oracle under which no string parses (every `new Date(s)`
is an Invalid Date). -/
def dpNone : String → Option DateInfo := fun _ => none

/-- A row whose timestamp string is non-empty but unparseable. -/
def rowBadTs : RawRow := mkRow "5551234567" "unsuccessful delivery attempt" "not-a-date"

/-- A "successfully delivered" row whose timestamp is a single space:
truthy (so it passes the validity filter) but blank after `trim()` (so it
is not a delivery attempt). -/
def rowWsSuccess : RawRow := mkRow "5551234567" "successfully delivered" " "

/-- A failed-result row with the same whitespace-only timestamp. -/
def rowWsFail : RawRow := mkRow "5551234567" "voicemail full" " "

/-- C1: the health classifier is a pure function of its four inputs whose
result coincides, on every input, with first-match evaluation of the
spec's seven-rule table (rules 1-3 Toxic, 4-6 Degrading, default Healthy);
in particular `successRate = 0.05, consecutiveFailures = 5, totalAttempts
= 10, hasRecentSuccess = false` classifies as Toxic via rule 1. -/
theorem classifyTNHealth_matches_rule_table :
    (∀ (sr : ℚ) (cf ta : Nat) (rs : Bool),
      classifyTNHealth sr cf ta rs = specClassifyC1 sr cf ta rs)
    ∧ classifyTNHealth (mkRat 1 20) 5 10 false = "Toxic" := by
  constructor
  · intro sr cf ta rs
    unfold classifyTNHealth specClassifyC1 c1Rules
    simp only [List.find?]
    by_cases h1 : sr < mkRat 1 10 ∧ 4 ≤ cf
    · simp [h1.1, h1.2]
    · rw [if_neg h1]
      have e1 : (decide (sr < mkRat 1 10) && decide (4 ≤ cf)) = false := by
        rcases Decidable.not_and_iff_or_not.mp h1 with h | h <;> simp [h]
      rw [e1]
      by_cases h2 : 6 ≤ cf
      · simp [h2]
      · rw [if_neg h2]
        simp only [decide_eq_false h2]
        by_cases h3 : 5 ≤ ta ∧ sr = 0
        · simp [h3.1, h3.2]
        · rw [if_neg h3]
          have e3 : (decide (5 ≤ ta) && decide (sr = 0)) = false := by
            rcases Decidable.not_and_iff_or_not.mp h3 with h | h <;> simp [h]
          rw [e3]
          by_cases h4 : sr < mkRat 1 4 ∧ 2 ≤ cf
          · simp [h4.1, h4.2]
          · rw [if_neg h4]
            have e4 : (decide (sr < mkRat 1 4) && decide (2 ≤ cf)) = false := by
              rcases Decidable.not_and_iff_or_not.mp h4 with h | h <;> simp [h]
            rw [e4]
            by_cases h5 : sr < mkRat 1 5 ∧ rs = false
            · simp [h5.1, h5.2]
            · rw [if_neg h5]
              have e5 : (decide (sr < mkRat 1 5) && !rs) = false := by
                rcases Decidable.not_and_iff_or_not.mp h5 with h | h
                · simp [h]
                · simp only [Bool.not_eq_false] at h
                  simp [h]
              rw [e5]
              by_cases h6 : 3 ≤ cf
              · simp [h6]
              · simp [h6]
  · decide

/-! ### Concrete fixtures used by witnesses and counterexamples -/

/-! ### C3: fatal no-analyzable-data behaviour -/

/-- C3 (amended): `generateTrendAnalysis` raises the single fatal error
'No data found in CSV input' exactly when the input row collection is
empty; any non-empty input — including one in which no row has a usable
number and timestamp — proceeds to a result.  (The claimed second fatal
case, for non-empty inputs with zero analyzable rows, does not exist in
the code: rows failing validation are silently dropped and the analysis
runs to completion.) -/
theorem analysis_error_exactly_on_empty_input :
    ∀ (dp : String → Option DateInfo) (rows : List RawRow) (minC : Nat) (minS : ℚ),
      (rows = [] → generateTrendAnalysis dp rows minC minS = .error "No data found in CSV input")
      ∧ (rows ≠ [] → ∃ res, generateTrendAnalysis dp rows minC minS = .ok res) := by
  intro dp rows minC minS
  constructor
  · rintro rfl
    rfl
  · intro h
    match rows, h with
    | r :: rs, _ => exact ⟨_, rfl⟩

/-- Witness for C3: both branches at concrete inputs. -/
theorem analysis_error_exactly_on_empty_input_witness :
    generateTrendAnalysis dpNone [] 4 30 = .error "No data found in CSV input"
    ∧ ∃ res, generateTrendAnalysis dpNone [rowBadTs] 4 30 = .ok res :=
  ⟨(analysis_error_exactly_on_empty_input dpNone [] 4 30).1 rfl,
   (analysis_error_exactly_on_empty_input dpNone [rowBadTs] 4 30).2 (by decide)⟩

/-- C3 counterexample: a non-empty input in which no row has a usable
number (so zero rows survive normalization) does NOT fail — the claim
says it must raise the no-analyzable-data error, but the engine returns a
result. -/
theorem no_usable_rows_still_succeeds :
    exceptIsOk (generateTrendAnalysis dpNone [mkRow "" "voicemail full" "x"] 4 30) = true := by
  rfl

/-! ### C5: the count invariant -/

/-- C5 (amended): at every step of the per-number fold,
`successCount + unsuccessfulCount = totalAttempts + (number of Success
rows that are not delivery attempts)`.  The spec's invariant
`successCount + unsuccessfulCount == totalAttempts` therefore holds
exactly when every Success row is a delivery attempt; a Success row with
a whitespace-only (truthy but blank-trimmed) timestamp increments
`successCount` without incrementing `totalAttempts`. -/
theorem count_invariant_with_non_attempt_successes :
    ∀ (num : String) (rows : List ERow),
      (foldProfile num rows).successCount + (foldProfile num rows).unsuccessfulCount
        = (foldProfile num rows).totalAttempts
          + rows.countP (fun r => r.isSuccess && !r.isDeliveryAttempt) := by
  intro num rows
  induction rows using List.reverseRecOn with
  | nil => rfl
  | append_singleton l r ih =>
    rw [foldProfile, List.foldl_append, List.foldl_cons, List.foldl_nil, List.countP_append]
    rw [foldProfile] at ih
    rcases hs : r.isSuccess <;> rcases hd : r.isDeliveryAttempt <;>
      simp [step, hs, hd, List.countP_cons] <;> omega

/-- C5 counterexample: through the full pipeline, a single
"successfully delivered" row with timestamp `" "` yields a profile with
`successCount = 1`, `unsuccessfulCount = 0`, `totalAttempts = 0`,
violating `successCount + unsuccessfulCount == totalAttempts`. -/
theorem success_without_delivery_attempt_breaks_count_invariant :
    ((numberDataOf dpNone [rowWsSuccess]).lookup "5551234567").map
        (fun nd => ((nd.successCount, nd.unsuccessfulCount, nd.totalAttempts),
          decide (nd.successCount + nd.unsuccessfulCount = nd.totalAttempts)))
      = some ((1, 0, 0), false) := by
  decide

/-! ### C9: rows with unparseable timestamps -/

/-- C9 (amended): the engine never tests timestamp parseability.  A row
whose timestamp string is non-blank is enriched as a delivery attempt
even when `new Date` yields an Invalid Date, and appending such a row to
a number's sequence bumps `totalAttempts`, `attemptIndex` and (for a
non-Success result) `consecutiveFailures`; only the hour/day histograms
are left untouched (the NaN `getHours()`/`getDay()` indices miss every
numbered bucket). -/
theorem unparseable_timestamp_rows_still_counted :
    ∀ (dp : String → Option DateInfo) (rw : RawRow) (num : String) (l : List ERow) (r : ERow),
      (dp rw.voapps_timestamp = none → jsTrim rw.voapps_timestamp ≠ "" →
        rw.voapps_timestamp ≠ "" → (mkERow dp rw).isDeliveryAttempt = true)
      ∧ (r.isDeliveryAttempt = true → r.parsed = none → r.isSuccess = false →
          (foldProfile num (l ++ [r])).totalAttempts = (foldProfile num l).totalAttempts + 1
          ∧ (foldProfile num (l ++ [r])).attemptIndex = (foldProfile num l).attemptIndex + 1
          ∧ (foldProfile num (l ++ [r])).consecutiveFailures
              = (foldProfile num l).consecutiveFailures + 1
          ∧ (foldProfile num (l ++ [r])).hourCounts = (foldProfile num l).hourCounts
          ∧ (foldProfile num (l ++ [r])).dayOfWeekCounts = (foldProfile num l).dayOfWeekCounts) := by
  intro dp rw num l r
  constructor
  · intro hdp htrim hts
    simp [mkERow, hts, htrim]
  · intro hd hp hs
    rw [foldProfile, List.foldl_append, List.foldl_cons, List.foldl_nil]
    simp [step, hd, hp, hs, foldProfile]

/-- Witness for C9 at a concrete unparseable-timestamp row. -/
theorem unparseable_timestamp_rows_still_counted_witness :
    (mkERow dpNone rowBadTs).isDeliveryAttempt = true
    ∧ (foldProfile "5551234567" ([] ++ [mkERow dpNone rowBadTs])).totalAttempts
        = (foldProfile "5551234567" []).totalAttempts + 1 :=
  ⟨(unparseable_timestamp_rows_still_counted dpNone rowBadTs "5551234567" []
      (mkERow dpNone rowBadTs)).1 rfl (by decide) (by decide),
   ((unparseable_timestamp_rows_still_counted dpNone rowBadTs "5551234567" []
      (mkERow dpNone rowBadTs)).2 (by decide) rfl (by decide)).1⟩

/-- C9 counterexample: through the full pipeline, a single row whose
timestamp does not parse still produces a profile with `attemptIndex = 1`,
`consecutiveFailures = 1` and `totalAttempts = 1` — the claim says such a
row contributes nothing to the attempt index or the consecutive-failure
counter. -/
theorem unparseable_timestamp_row_contributes :
    ((numberDataOf dpNone [rowBadTs]).lookup "5551234567").map
        (fun nd => (nd.attemptIndex, nd.consecutiveFailures, nd.totalAttempts))
      = some (1, 1, 1) := by
  decide

/-! ### C8: zero-attempt numbers and the health rollups -/

/-- The summary carries the accumulator's attempt count unchanged. -/
theorem summarize_totalAttempts (f : Option Int) (nd : NumberData) :
    (summarize f nd).totalAttempts = nd.totalAttempts := rfl

/-- The summary's success rate is `successCount / totalAttempts`, taken as
0 when there are no attempts. -/
theorem summarize_successRate (f : Option Int) (nd : NumberData) :
    (summarize f nd).successRate
      = if 0 < nd.totalAttempts then mkRat nd.successCount nd.totalAttempts else 0 := rfl

/-- `classifyTNHealth` always lands on one of the three labels. -/
theorem classifyTNHealth_mem (sr : ℚ) (cf ta : Nat) (rs : Bool) :
    classifyTNHealth sr cf ta rs = "Healthy" ∨ classifyTNHealth sr cf ta rs = "Degrading"
      ∨ classifyTNHealth sr cf ta rs = "Toxic" := by
  unfold classifyTNHealth
  split_ifs <;> simp

/-- Counting a three-way partition of summaries by health label. -/
theorem countP_health_partition :
    ∀ l : List Summary,
      (∀ s ∈ l, s.tnHealth = "Healthy" ∨ s.tnHealth = "Degrading" ∨ s.tnHealth = "Toxic") →
      l.countP (fun s => s.tnHealth = "Healthy") + l.countP (fun s => s.tnHealth = "Degrading")
        + l.countP (fun s => s.tnHealth = "Toxic") = l.length := by
  intro l
  induction l with
  | nil => intro _; rfl
  | cons s t ih =>
    intro h
    have hs := h s (List.mem_cons_self s t)
    have ht := ih (fun x hx => h x (List.mem_cons_of_mem s hx))
    have e1 : ("Healthy" : String) ≠ "Degrading" := by decide
    have e2 : ("Healthy" : String) ≠ "Toxic" := by decide
    have e3 : ("Degrading" : String) ≠ "Toxic" := by decide
    rcases hs with hh | hh | hh <;>
      simp [List.countP_cons, hh, e1, e2, e3, e1.symm, e2.symm, e3.symm] <;> omega

/-- C8 (amended): every number in `numberData` — including those with
`totalAttempts = 0` — is classified and lands in exactly one of the
healthy/degrading/toxic tallies used for the percentages and the list
grade (so the three counts partition `uniqueNumbers`); for a zero-attempt
number the `successRate` fed to the classifier is 0.  (The claim's
exclusion of zero-attempt numbers does not exist in the code.) -/
theorem every_number_classified_and_counted :
    ∀ (dp : String → Option DateInfo) (csvRows : List RawRow),
      healthyCountOf dp csvRows + degradingCountOf dp csvRows + toxicCountOf dp csvRows
        = (numberDataOf dp csvRows).length
      ∧ ∀ s ∈ summariesOf dp csvRows, s.totalAttempts = 0 → s.successRate = 0 := by
  intro dp csvRows
  constructor
  · have hlen : (summariesOf dp csvRows).length = (numberDataOf dp csvRows).length := by
      simp [summariesOf, numberDataOf]
    rw [healthyCountOf, degradingCountOf, toxicCountOf, ← hlen]
    apply countP_health_partition
    intro s hs
    obtain ⟨e, _, rfl⟩ := List.mem_map.mp hs
    exact classifyTNHealth_mem _ _ _ _
  · intro s hs h0
    obtain ⟨e, _, rfl⟩ := List.mem_map.mp hs
    rw [summarize_totalAttempts] at h0
    rw [summarize_successRate, h0]
    simp

set_option maxHeartbeats 2000000 in
/-- Witness for C8 at a concrete input with one zero-attempt number. -/
theorem every_number_classified_and_counted_witness :
    (healthyCountOf dpNone [rowWsFail] + degradingCountOf dpNone [rowWsFail]
        + toxicCountOf dpNone [rowWsFail] = (numberDataOf dpNone [rowWsFail]).length)
    ∧ ((summariesOf dpNone [rowWsFail]).headD (summarize none (initND ""))).successRate = 0 :=
  ⟨(every_number_classified_and_counted dpNone [rowWsFail]).1,
   (every_number_classified_and_counted dpNone [rowWsFail]).2
     ((summariesOf dpNone [rowWsFail]).headD (summarize none (initND "")))
     (by decide) (by decide)⟩

/-- C8 counterexample: a number whose only row has a whitespace-only
timestamp has `totalAttempts = 0`, yet it IS assigned a health label
(Degrading, via rule 5 with `successRate = 0` and no recent success) and
counted in `degradingCount` — the claim says such a number is never
classified and excluded from the tallies. -/
theorem zero_attempt_number_gets_health_label :
    (summariesOf dpNone [rowWsFail]).map (fun s => (s.totalAttempts, s.tnHealth))
      = [(0, "Degrading")]
    ∧ degradingCountOf dpNone [rowWsFail] = 1 := by
  constructor <;> decide

/-! ### C10: the input rows are mutated in place -/

/-- C10 (amended): the enrichment loop mutates the input row objects.  A
row passing the validity filter gets exactly the four derived properties
`parsedDate`, `voapps_result_normalized`, `isSuccess`,
`isDeliveryAttempt` written onto it (its ten original fields are
preserved by the record update); a row failing the filter is untouched;
and the returned collection is the per-row image of this update. -/
theorem enrichment_mutates_exactly_valid_rows :
    ∀ (dp : String → Option DateInfo) (r : RawRow) (rows : List RawRow),
      (validFilter r = true → postRow dp r =
        { r with
          parsedDate := some (dp r.voapps_timestamp)
          voapps_result_normalized := some (jsToLower (jsTrim r.voapps_result))
          isSuccess := some (decide (jsToLower (jsTrim r.voapps_result) = "successfully delivered"))
          isDeliveryAttempt :=
            some (decide (r.voapps_timestamp ≠ "" ∧ jsTrim r.voapps_timestamp ≠ "")) })
      ∧ (validFilter r = false → postRow dp r = r)
      ∧ rowsAfter dp (r :: rows) = postRow dp r :: rowsAfter dp rows := by
  intro dp r rows
  refine ⟨fun hv => ?_, fun hv => ?_, rfl⟩
  · simp [postRow, hv]
  · simp [postRow, hv]

/-- Witness for C10: the two filter branches at concrete rows. -/
theorem enrichment_mutates_exactly_valid_rows_witness :
    (postRow dpNone rowBadTs =
      { rowBadTs with
        parsedDate := some (dpNone rowBadTs.voapps_timestamp)
        voapps_result_normalized := some (jsToLower (jsTrim rowBadTs.voapps_result))
        isSuccess :=
          some (decide (jsToLower (jsTrim rowBadTs.voapps_result) = "successfully delivered"))
        isDeliveryAttempt :=
          some (decide (rowBadTs.voapps_timestamp ≠ "" ∧ jsTrim rowBadTs.voapps_timestamp ≠ "")) })
    ∧ postRow dpNone (mkRow "" "" "") = mkRow "" "" "" :=
  ⟨(enrichment_mutates_exactly_valid_rows dpNone rowBadTs []).1 (by decide),
   (enrichment_mutates_exactly_valid_rows dpNone (mkRow "" "" "") []).2.1 (by decide)⟩

/-- C10 counterexample: after a call on a single valid row, the row object
is no longer equal to its pre-call state — the claim says every input row
object is unchanged. -/
theorem input_rows_mutated_by_enrichment :
    (rowsAfter dpNone [rowBadTs]).map (fun r => decide (r = rowBadTs)) = [false] := by
  decide

/-! ### C7: variability score bounds and the single-attempt neutral value -/

/-- C7: the variability score always lies in [0, 100], and a number with
exactly one delivery attempt gets the fixed neutral score 50. -/
theorem variabilityScore_bounds_and_neutral :
    ∀ nd : NumberData,
      (0 ≤ variabilityScore nd ∧ variabilityScore nd ≤ 100)
      ∧ (nd.totalAttempts = 1 → variabilityScore nd = 50) := by
  intro nd
  simp only [variabilityScore]
  split_ifs with h <;>
    refine ⟨⟨?_, ?_⟩, fun h1 => ?_⟩ <;>
    first
      | exact le_max_left 0 _
      | exact max_le (by norm_num) (min_le_left _ _)
      | omega
      | norm_num

/-- Witness for C7 at a concrete single-attempt accumulator. -/
theorem variabilityScore_bounds_and_neutral_witness :
    ((0 ≤ variabilityScore { initND "5551234567" with totalAttempts := 1 }
        ∧ variabilityScore { initND "5551234567" with totalAttempts := 1 } ≤ 100)
      ∧ ({ initND "5551234567" with totalAttempts := 1 } : NumberData).totalAttempts = 1)
    ∧ variabilityScore { initND "5551234567" with totalAttempts := 1 } = 50 :=
  ⟨⟨(variabilityScore_bounds_and_neutral { initND "5551234567" with totalAttempts := 1 }).1, rfl⟩,
   (variabilityScore_bounds_and_neutral { initND "5551234567" with totalAttempts := 1 }).2 rfl⟩

/-! ### C2: run retention -/

/-- `takeWhile` distributes over an append whose first part wholly
satisfies the predicate. -/
theorem takeWhile_append_all {α : Type} (p : α → Bool) :
    ∀ (xs ys : List α), xs.all p = true → (xs ++ ys).takeWhile p = xs ++ ys.takeWhile p := by
  intro xs ys h
  induction xs with
  | nil => simp
  | cons x t ih =>
    simp only [List.all_cons, Bool.and_eq_true] at h
    simp [List.takeWhile_cons, h.1, ih h.2]

/-- `takeWhile` ignores everything after the first failing element. -/
theorem takeWhile_append_not_all {α : Type} (p : α → Bool) :
    ∀ (xs ys : List α), xs.all p = false → (xs ++ ys).takeWhile p = xs.takeWhile p := by
  intro xs ys h
  induction xs with
  | nil => simp at h
  | cons x t ih =>
    by_cases hx : p x = true
    · simp only [List.all_cons, hx, Bool.true_and] at h
      simp [List.takeWhile_cons, hx, ih h]
    · have hx2 : p x = false := by simpa using hx
      simp [List.takeWhile_cons, hx2]

/-- The scan of lines 909–953 equals: interior segments filtered by
"length ≥ threshold AND (span ≥ minimum OR length ≥ 6)", followed by the
trailing segment filtered by "length ≥ threshold" alone. -/
theorem runScan_eq_segs (minC : Nat) (minS : ℚ) (num health : String) :
    ∀ (l cur : List Att),
      runScan minC minS num health cur l
        = ((segsAux cur l).1.filter
              (fun s => decide (minC ≤ s.length)
                && (spanGe minS (mkRun num health s).spanDays || decide (6 ≤ s.length)))).map
            (mkRun num health)
          ++ (if minC ≤ (segsAux cur l).2.length
              then [mkRun num health (segsAux cur l).2] else []) := by
  intro l
  induction l with
  | nil => intro cur; simp [runScan, segsAux]
  | cons a rest ih =>
    intro cur
    by_cases ha : a.isSuccess = false
    · rw [runScan, segsAux]
      simp only [ha, if_true, eq_self_iff_true]
      exact ih (cur ++ [a])
    · have ha2 : a.isSuccess = true := by simpa using ha
      rw [runScan, segsAux]
      simp only [ha2, Bool.true_eq_false, if_false, if_neg (by simp : ¬(true = false))]
      rw [ih []]
      by_cases hc : minC ≤ cur.length ∧ (spanGe minS (mkRun num health cur).spanDays = true
          ∨ 6 ≤ cur.length)
      · rw [if_pos hc]
        have hb : (decide (minC ≤ cur.length)
            && (spanGe minS (mkRun num health cur).spanDays || decide (6 ≤ cur.length))) = true := by
          rcases hc with ⟨h1, h2⟩
          rcases h2 with h2 | h2 <;> simp [h1, h2]
        simp [List.filter_cons, hb]
      · rw [if_neg hc]
        have hb : (decide (minC ≤ cur.length)
            && (spanGe minS (mkRun num health cur).spanDays || decide (6 ≤ cur.length))) = false := by
          rcases Decidable.not_and_iff_or_not.mp hc with h | h
          · simp [h]
          · rcases not_or.mp h with ⟨h2, h3⟩
            simp [h2, h3]
        simp [List.filter_cons, hb]

/-- The trailing segment of the scan is exactly the maximal open
non-Success suffix of the attempt list. -/
theorem segsAux_trailing_eq :
    ∀ (l cur : List Att), cur.all (fun a => !a.isSuccess) = true →
      (segsAux cur l).2 = ((cur ++ l).reverse.takeWhile (fun a => !a.isSuccess)).reverse := by
  intro l
  induction l with
  | nil =>
    intro cur hcur
    have : (cur.reverse.takeWhile (fun a => !a.isSuccess)) = cur.reverse := by
      apply List.takeWhile_eq_self_iff.mpr
      intro a hax
      have := List.mem_reverse.mp hax
      exact List.all_eq_true.mp hcur a this
    simp [segsAux, this]
  | cons a rest ih =>
    intro cur hcur
    by_cases ha : a.isSuccess = false
    · rw [segsAux]
      simp only [ha, if_true, eq_self_iff_true]
      have hcur2 : (cur ++ [a]).all (fun x => !x.isSuccess) = true := by
        simp [List.all_append, hcur, ha]
      rw [ih (cur ++ [a]) hcur2]
      simp [List.append_assoc]
    · have ha2 : a.isSuccess = true := by simpa using ha
      rw [segsAux]
      simp only [ha2, Bool.true_eq_false, if_false, if_neg (by simp : ¬(true = false))]
      rw [ih [] rfl]
      have hsplit : (cur ++ a :: rest).reverse
          = rest.reverse ++ ([a] ++ cur.reverse) := by
        simp
      rw [hsplit]
      by_cases hall : rest.reverse.all (fun x => !x.isSuccess) = true
      · rw [takeWhile_append_all _ _ _ hall]
        have h1 : List.takeWhile (fun x => !x.isSuccess) ([a] ++ cur.reverse) = [] := by
          simp [List.takeWhile_cons, ha2]
        rw [h1]
        have h2 : List.takeWhile (fun x => !x.isSuccess) rest.reverse = rest.reverse := by
          apply List.takeWhile_eq_self_iff.mpr
          exact fun x hx => List.all_eq_true.mp hall x hx
        simp [h2]
      · have hall2 : rest.reverse.all (fun x => !x.isSuccess) = false := by
          simpa using hall
        rw [takeWhile_append_not_all _ _ _ hall2]
        simp

/-- C2 (amended): for every number, the scan-emitted runs are exactly:
every interior run (terminated by a Success) with `length ≥
minConsecUnsuccessful` AND (`spanDays ≥ minRunSpanDays` OR `length ≥ 6`),
plus the trailing still-open run whenever `length ≥
minConsecUnsuccessful` — with NO span condition on the trailing run.  (A
trailing run with enough length but a short span, contrary to the claim,
IS retained.)  The trailing segment is the maximal open non-Success
suffix.  The hypothesis `1 ≤ minConsecUnsuccessful` is the engine's
documented parameter domain (at 0 the JS scan would dereference an
element of an empty run and crash). -/
theorem runScan_retention_characterization :
    ∀ (minC : Nat) (minS : ℚ) (num health : String) (l : List Att), 1 ≤ minC →
      runScan minC minS num health [] l
        = ((segsAux [] l).1.filter
              (fun s => decide (minC ≤ s.length)
                && (spanGe minS (mkRun num health s).spanDays || decide (6 ≤ s.length)))).map
            (mkRun num health)
          ++ (if minC ≤ (segsAux [] l).2.length
              then [mkRun num health (segsAux [] l).2] else [])
      ∧ (segsAux [] l).2 = (l.reverse.takeWhile (fun a => !a.isSuccess)).reverse := by
  intro minC minS num health l hmin
  refine ⟨runScan_eq_segs minC minS num health l [], ?_⟩
  simpa using segsAux_trailing_eq l [] rfl

/-- Witness for C2: the characterization instantiated at threshold 4,
minimum span 30 and a concrete 4-attempt trailing run. -/
theorem runScan_retention_characterization_witness :
    runScan 4 30 "5551234567" "Toxic" [] (List.replicate 4 failAtt)
        = ((segsAux [] (List.replicate 4 failAtt)).1.filter
              (fun s => decide (4 ≤ s.length)
                && (spanGe 30 (mkRun "5551234567" "Toxic" s).spanDays || decide (6 ≤ s.length)))).map
            (mkRun "5551234567" "Toxic")
          ++ (if 4 ≤ (segsAux [] (List.replicate 4 failAtt)).2.length
              then [mkRun "5551234567" "Toxic" (segsAux [] (List.replicate 4 failAtt)).2] else [])
      ∧ (segsAux [] (List.replicate 4 failAtt)).2
        = ((List.replicate 4 failAtt).reverse.takeWhile (fun a => !a.isSuccess)).reverse :=
  runScan_retention_characterization 4 30 "5551234567" "Toxic" (List.replicate 4 failAtt)
    (by decide)

/-- C2 counterexample: with `minConsecUnsuccessful = 4` and
`minRunSpanDays = 30`, a trailing run of 4 same-day failures (span 0 < 30
and length 4 < 6) IS emitted — the claim says a run is retained only if
`spanDays ≥ minRunSpanDays` or `length ≥ 6`, so it predicts no run here. -/
theorem trailing_run_retained_without_span_check :
    (runScan 4 30 "5551234567" "Toxic" [] (List.replicate 4 failAtt)).map
        (fun r => (r.count, r.spanDays, spanGe 30 r.spanDays))
      = [(4, some 0, false)]
    ∧ ¬((30 : ℚ) ≤ 0 ∨ 6 ≤ 4) := by
  constructor
  · decide
  · decide

/-! ### C4: the attempt-index reset invariant -/

/-- `step` appends exactly one attempt record. -/
theorem step_attempts (nd : NumberData) (r : ERow) :
    (step nd r).attempts = nd.attempts ++ [stepAtt nd r] := by
  simp only [step, stepAtt, mkAtt]
  by_cases h : r.isDeliveryAttempt <;> simp [h]

/-- Folding one more row applies one more `step`. -/
theorem foldProfile_append (num : String) (l : List ERow) (r : ERow) :
    foldProfile num (l ++ [r]) = step (foldProfile num l) r := by
  simp [foldProfile, List.foldl_append]

/-- `afterLastSuccess` over one appended row. -/
theorem afterLastSuccess_append (l : List ERow) (r : ERow) :
    afterLastSuccess (l ++ [r])
      = if r.isSuccess then [] else afterLastSuccess l ++ [r] := by
  unfold afterLastSuccess
  rw [List.reverse_append]
  simp only [List.reverse_singleton, List.singleton_append, List.takeWhile_cons]
  by_cases h : r.isSuccess
  · simp [h]
  · have h2 : r.isSuccess = false := by simpa using h
    simp [h2]

/-- The running `attemptIndex` equals the number of delivery attempts
since the most recent Success, at every point of the fold. -/
theorem foldProfile_attemptIndex (num : String) :
    ∀ l : List ERow, (foldProfile num l).attemptIndex = deliverySince l := by
  intro l
  induction l using List.reverseRecOn with
  | nil => rfl
  | append_singleton t r ih =>
    rw [foldProfile_append, deliverySince, afterLastSuccess_append]
    by_cases h : r.isSuccess
    · simp [step, h]
    · have h2 : r.isSuccess = false := by simpa using h
      rw [if_neg (by simp [h2])]
      rw [List.countP_append, List.countP_cons]
      have ih2 : (foldProfile num t).attemptIndex = deliverySince t := ih
      by_cases hd : r.isDeliveryAttempt <;>
        simp [step, h2, hd, ih2, deliverySince]

/-- The fold emits one attempt record per row. -/
theorem foldProfile_attempts_length (num : String) :
    ∀ l : List ERow, (foldProfile num l).attempts.length = l.length := by
  intro l
  induction l using List.reverseRecOn with
  | nil => rfl
  | append_singleton t r ih =>
    rw [foldProfile_append, step_attempts]
    simp [ih]

/-- Processing further rows only appends further attempt records. -/
theorem foldProfile_attempts_prefix (num : String) (p : List ERow) :
    ∀ q : List ERow, ∃ t : List Att,
      (foldProfile num (p ++ q)).attempts = (foldProfile num p).attempts ++ t := by
  intro q
  induction q using List.reverseRecOn with
  | nil => exact ⟨[], by simp⟩
  | append_singleton s r ih =>
    obtain ⟨t, ht⟩ := ih
    refine ⟨t ++ [stepAtt (foldProfile num (p ++ s)) r], ?_⟩
    rw [← List.append_assoc, foldProfile_append, step_attempts, ht, List.append_assoc]

/-- A zero attempt index survives any stretch of non-delivery rows. -/
theorem foldl_attemptIndex_zero (l2 : List ERow) :
    ∀ nd : NumberData, nd.attemptIndex = 0 → (∀ r ∈ l2, r.isDeliveryAttempt = false) →
      (l2.foldl step nd).attemptIndex = 0 := by
  induction l2 with
  | nil => intro nd h _; simpa using h
  | cons a t ih =>
    intro nd h hall
    rw [List.foldl_cons]
    refine ih (step nd a) ?_ (fun r hr => hall r (List.mem_cons_of_mem a hr))
    have hd : a.isDeliveryAttempt = false := hall a (List.mem_cons_self a t)
    by_cases hs : a.isSuccess <;> simp [step, hs, hd, h]

/-- C4: after any Success, the attempt index is reset, so the next
delivery-attempt record (across any intervening non-delivery rows)
carries `attemptIndex = 1`; and at every point of the fold the running
`attemptIndex` equals the count of delivery attempts since the most
recent Success (or since the start). -/
theorem attemptIndex_reset_invariant :
    ∀ (num : String) (l1 l2 l3 : List ERow) (s d : ERow),
      s.isSuccess = true → d.isDeliveryAttempt = true →
      (∀ r ∈ l2, r.isDeliveryAttempt = false) →
      ((foldProfile num (l1 ++ s :: l2 ++ d :: l3)).attempts)[l1.length + 1 + l2.length]?
          = some (mkAtt d 1)
      ∧ ∀ rows : List ERow, (foldProfile num rows).attemptIndex = deliverySince rows := by
  intro num l1 l2 l3 s d hs hd hl2
  constructor
  · have hzero : (foldProfile num (l1 ++ s :: l2)).attemptIndex = 0 := by
      have hsplit : l1 ++ s :: l2 = (l1 ++ [s]) ++ l2 := by simp
      rw [hsplit, foldProfile, List.foldl_append]
      refine foldl_attemptIndex_zero l2 _ ?_ hl2
      rw [← foldProfile, foldProfile_append]
      simp [step, hs]
    have hrows : l1 ++ s :: l2 ++ d :: l3 = ((l1 ++ s :: l2) ++ [d]) ++ l3 := by
      simp
    obtain ⟨t, ht⟩ := foldProfile_attempts_prefix num ((l1 ++ s :: l2) ++ [d]) l3
    rw [hrows, ht, foldProfile_append, step_attempts]
    have hatt : stepAtt (foldProfile num (l1 ++ s :: l2)) d = mkAtt d 1 := by
      simp [stepAtt, hd, hzero]
    rw [hatt]
    have hlen : (foldProfile num (l1 ++ s :: l2)).attempts.length
        = l1.length + 1 + l2.length := by
      rw [foldProfile_attempts_length]
      simp
      omega
    rw [List.append_assoc, List.getElem?_append_right (by omega)]
    simp [hlen]
  · exact foldProfile_attemptIndex num

/-- Witness for C4: a Success immediately followed by a delivery attempt
records attempt index 1. -/
theorem attemptIndex_reset_invariant_witness :
    ((foldProfile "5551234567" ([] ++ successERow :: [] ++ failERow :: [])).attempts)[0 + 1 + 0]?
        = some (mkAtt failERow 1)
      ∧ ∀ rows : List ERow,
          (foldProfile "5551234567" rows).attemptIndex = deliverySince rows :=
  attemptIndex_reset_invariant "5551234567" [] [] [] successERow failERow rfl rfl
    (by simp)

/-! ### C6: decay curve shape and total conservation -/

/-- Folding one more row updates the map at that row's number. -/
theorem buildNumberData_append (l : List ERow) (r : ERow) :
    buildNumberData (l ++ [r])
      = upsert (buildNumberData l) r.number (fun nd => step nd r) := by
  simp [buildNumberData, List.foldl_append]

/-- `upsert` preserves any per-entry property that holds of the update of
an old value and of the update of a fresh accumulator. -/
theorem upsert_preserves (Q : String × NumberData → Prop)
    (k : String) (f : NumberData → NumberData) :
    ∀ ndl : List (String × NumberData),
      (∀ e ∈ ndl, Q e) → Q (k, f (initND k)) →
      (∀ v : NumberData, Q (k, v) → Q (k, f v)) →
      ∀ e ∈ upsert ndl k f, Q e := by
  intro ndl
  induction ndl with
  | nil =>
    intro _ hnew _ e he
    simp only [upsert, List.mem_singleton] at he
    exact he ▸ hnew
  | cons x t ih =>
    rcases x with ⟨k0, v⟩
    intro hold hnew hupd e he
    by_cases hk : k0 = k
    · subst hk
      rw [upsert, if_pos rfl] at he
      rcases List.mem_cons.mp he with h | h
      · exact h ▸ hupd v (hold (k0, v) (List.mem_cons_self _ _))
      · exact hold e (List.mem_cons_of_mem _ h)
    · rw [upsert, if_neg hk] at he
      rcases List.mem_cons.mp he with h | h
      · exact h ▸ hold (k0, v) (List.mem_cons_self _ _)
      · exact ih (fun x hx => hold x (List.mem_cons_of_mem _ hx)) hnew hupd e h

/-- The appended attempt's delivery flag and recorded index. -/
theorem stepAtt_fields (nd : NumberData) (r : ERow) :
    (stepAtt nd r).isDeliveryAttempt = r.isDeliveryAttempt
      ∧ (stepAtt nd r).attemptIndex
          = (if r.isDeliveryAttempt then nd.attemptIndex + 1 else 0)
      ∧ (stepAtt nd r).isSuccess = r.isSuccess := by
  simp [stepAtt, mkAtt]

/-- Every delivery-attempt record ever stored carries a recorded attempt
index of at least 1 (the counter is incremented before recording). -/
theorem buildNumberData_attemptIndex_pos :
    ∀ (rows : List ERow) (e : String × NumberData), e ∈ buildNumberData rows →
      ∀ a ∈ e.2.attempts, a.isDeliveryAttempt = true → 1 ≤ a.attemptIndex := by
  intro rows
  induction rows using List.reverseRecOn with
  | nil => simp [buildNumberData]
  | append_singleton t r ih =>
    rw [buildNumberData_append]
    intro e he
    refine upsert_preserves
      (fun e => ∀ a ∈ e.2.attempts, a.isDeliveryAttempt = true → 1 ≤ a.attemptIndex)
      r.number (fun nd => step nd r) (buildNumberData t) ih ?_ ?_ e he
    · intro a ha had
      rw [step_attempts] at ha
      simp only [initND, List.nil_append, List.mem_singleton] at ha
      subst ha
      rw [(stepAtt_fields _ r).1] at had
      rw [(stepAtt_fields _ r).2.1, if_pos had]
    · intro v hv a ha had
      rw [step_attempts] at ha
      rcases List.mem_append.mp ha with h | h
      · exact hv a h had
      · rw [List.mem_singleton] at h
        subst h
        rw [(stepAtt_fields v r).1] at had
        rw [(stepAtt_fields v r).2.1, if_pos had]
        omega

/-- Counting attempts matching `p` across the whole map after an
`upsert`-with-`step`, when `p` of the new record does not depend on the
accumulator state. -/
theorem upsert_allAttempts_countP (p : Att → Bool) (r : ERow) (b : Bool)
    (hb : ∀ nd : NumberData, p (stepAtt nd r) = b) :
    ∀ (ndl : List (String × NumberData)) (k : String),
      (allAttempts (upsert ndl k (fun nd => step nd r))).countP p
        = (allAttempts ndl).countP p + (if b then 1 else 0) := by
  intro ndl
  induction ndl with
  | nil =>
    intro k
    have h1 : allAttempts (upsert [] k (fun nd => step nd r))
        = (step (initND k) r).attempts := by
      simp [upsert, allAttempts]
    rw [h1, step_attempts, List.countP_append, List.countP_cons, List.countP_nil,
      hb (initND k)]
    have h2 : (initND k).attempts = [] := rfl
    rw [h2]
    simp [allAttempts]
  | cons x t ih =>
    rcases x with ⟨k0, v⟩
    intro k
    by_cases hk : k0 = k
    · rw [upsert, if_pos hk]
      simp only [allAttempts, List.map_cons, List.flatten_cons]
      rw [step_attempts, List.countP_append, List.countP_append, List.countP_cons,
        List.countP_nil, hb v]
      by_cases hbv : b <;> simp [hbv] <;> omega
    · rw [upsert, if_neg hk]
      simp only [allAttempts, List.map_cons, List.flatten_cons]
      rw [List.countP_append, List.countP_append]
      have := ih k
      simp only [allAttempts] at this
      omega

/-- Total conservation at the map level: across all numbers, the stored
attempt records contain exactly one delivery-attempt record per
delivery-attempt row. -/
theorem allAttempts_countP_delivery :
    ∀ rows : List ERow,
      (allAttempts (buildNumberData rows)).countP (fun a => a.isDeliveryAttempt)
        = rows.countP (fun r => r.isDeliveryAttempt) := by
  intro rows
  induction rows using List.reverseRecOn with
  | nil => rfl
  | append_singleton t r ih =>
    rw [buildNumberData_append,
      upsert_allAttempts_countP (fun a => a.isDeliveryAttempt) r r.isDeliveryAttempt
        (fun nd => (stepAtt_fields nd r).1) (buildNumberData t) r.number,
      ih, List.countP_append, List.countP_cons, List.countP_nil]
    by_cases hd : r.isDeliveryAttempt <;> simp [hd]

/-- Pointwise sum splitting for Nat-valued maps. -/
theorem sum_map_add_distrib {α : Type} (f g : α → Nat) :
    ∀ l : List α, (l.map (fun x => f x + g x)).sum = (l.map f).sum + (l.map g).sum := by
  intro l
  induction l with
  | nil => rfl
  | cons x t ih =>
    simp only [List.map_cons, List.sum_cons, ih]
    omega

/-- A capped index in 1..10 hits exactly one of the ten buckets. -/
theorem sum_indicator_range10 (m : Nat) (h1 : 1 ≤ m) (h2 : m ≤ 10) :
    ((List.range 10).map (fun k => if m = k + 1 then 1 else 0)).sum = 1 := by
  interval_cases m <;> decide

/-- Summing the ten bucket totals over any attempt list whose delivery
records carry positive indices yields the delivery-attempt count. -/
theorem bucket_sum_eq_countP :
    ∀ A : List Att, (∀ a ∈ A, a.isDeliveryAttempt = true → 1 ≤ a.attemptIndex) →
      ((List.range 10).map (fun k => bucketTotal A (k + 1))).sum
        = A.countP (fun a => a.isDeliveryAttempt) := by
  intro A
  induction A with
  | nil => intro _; simp [bucketTotal]
  | cons a t ih =>
    intro h
    have ht := ih (fun x hx => h x (List.mem_cons_of_mem a hx))
    have hsplit : (List.range 10).map (fun k => bucketTotal (a :: t) (k + 1))
        = (List.range 10).map (fun k => bucketTotal t (k + 1)
            + (if (a.isDeliveryAttempt && decide (min a.attemptIndex 10 = k + 1))
               then 1 else 0)) := by
      apply List.map_congr_left
      intro k _
      rw [bucketTotal, bucketTotal, List.countP_cons]
    rw [hsplit, sum_map_add_distrib, ht, List.countP_cons]
    by_cases hd : a.isDeliveryAttempt
    · have h1 : 1 ≤ a.attemptIndex := h a (List.mem_cons_self a t) hd
      have hind : ((List.range 10).map
            (fun k => if (a.isDeliveryAttempt && decide (min a.attemptIndex 10 = k + 1))
              then 1 else 0)).sum = 1 := by
        have hcongr : (List.range 10).map
              (fun k => if (a.isDeliveryAttempt && decide (min a.attemptIndex 10 = k + 1))
                then 1 else 0)
            = (List.range 10).map (fun k => if min a.attemptIndex 10 = k + 1 then 1 else 0) := by
          apply List.map_congr_left
          intro k _
          simp [hd]
        rw [hcongr]
        exact sum_indicator_range10 (min a.attemptIndex 10) (by omega) (by omega)
      rw [hind]
      simp [hd]
    · have hind : ((List.range 10).map
            (fun k => if (a.isDeliveryAttempt && decide (min a.attemptIndex 10 = k + 1))
              then 1 else 0)).sum = 0 := by
        have hcongr : (List.range 10).map
              (fun k => if (a.isDeliveryAttempt && decide (min a.attemptIndex 10 = k + 1))
                then 1 else 0)
            = (List.range 10).map (fun _ => 0) := by
          apply List.map_congr_left
          intro k _
          simp [hd]
        rw [hcongr]
        simp
      rw [hind]
      simp [hd]

/-- C6: for every input, the decay curve is exactly 10 ordered buckets
labelled "1".."9" and "10+" (fixed shape even when empty), each bucket's
probability is `successful / total` (0 when the bucket is empty), and the
bucket totals sum to the number of delivery-attempt records across all
numbers. -/
theorem decayCurve_shape_and_total_conservation :
    ∀ (dp : String → Option DateInfo) (csvRows : List RawRow),
      (decayOf (numberDataOf dp csvRows)).length = 10
      ∧ (decayOf (numberDataOf dp csvRows)).map (fun b => b.attemptIndex)
          = ["1", "2", "3", "4", "5", "6", "7", "8", "9", "10+"]
      ∧ (decayOf (numberDataOf dp csvRows)).map (fun b => b.probability)
          = (decayOf (numberDataOf dp csvRows)).map
              (fun b => if 0 < b.total then mkRat b.successful b.total else 0)
      ∧ ((decayOf (numberDataOf dp csvRows)).map (fun b => b.total)).sum
          = (engineRows dp csvRows).countP (fun r => r.isDeliveryAttempt) := by
  intro dp csvRows
  refine ⟨?_, ?_, ?_, ?_⟩
  · simp [decayOf]
  · rfl
  · simp only [decayOf, List.map_map]
    rfl
  · simp only [decayOf, List.map_map]
    have hmm : ((List.range 10).map
          ((fun b : DecayBucket => b.total) ∘ (fun k =>
            let i := k + 1
            let tot := bucketTotal (allAttempts (numberDataOf dp csvRows)) i
            let suc := bucketSuccessful (allAttempts (numberDataOf dp csvRows)) i
            ({ attemptIndex := if i = 10 then "10+" else toString i
               total := tot
               successful := suc
               probability := if 0 < tot then mkRat suc tot else 0 } : DecayBucket))))
        = (List.range 10).map
            (fun k => bucketTotal (allAttempts (numberDataOf dp csvRows)) (k + 1)) := rfl
    have hpos : ∀ a ∈ allAttempts (numberDataOf dp csvRows),
        a.isDeliveryAttempt = true → 1 ≤ a.attemptIndex := by
      intro a ha had
      simp only [allAttempts] at ha
      rcases List.mem_flatten.mp ha with ⟨as, has, hain⟩
      rcases List.mem_map.mp has with ⟨e, hee, rfl⟩
      exact buildNumberData_attemptIndex_pos (engineRows dp csvRows) e hee a hain had
    rw [hmm, bucket_sum_eq_countP _ hpos]
    exact allAttempts_countP_delivery (engineRows dp csvRows)

/-! ### The counter-based second pass (lines 957–976) adds nothing -/

/-- The map key of every `numberData` entry is the profile's own number. -/
theorem buildNumberData_number_key :
    ∀ (rows : List ERow) (e : String × NumberData), e ∈ buildNumberData rows →
      e.2.number = e.1 := by
  intro rows
  induction rows using List.reverseRecOn with
  | nil => simp [buildNumberData]
  | append_singleton t r ih =>
    rw [buildNumberData_append]
    intro e he
    refine upsert_preserves (fun e => e.2.number = e.1) r.number (fun nd => step nd r)
      (buildNumberData t) ih ?_ ?_ e he
    · rfl
    · exact fun v hv => hv

/-- One `step` keeps the consecutive-failure counter within the open
trailing non-Success suffix of the stored attempts. -/
theorem step_cf_le_trailing (nd : NumberData) (r : ERow)
    (h : nd.consecutiveFailures ≤ (attTrailing nd.attempts).length) :
    (step nd r).consecutiveFailures ≤ (attTrailing (step nd r).attempts).length := by
  rw [step_attempts]
  by_cases hs : r.isSuccess
  · simp [step, hs]
  · have hs2 : r.isSuccess = false := by simpa using hs
    have hsa : (stepAtt nd r).isSuccess = false := by
      rw [(stepAtt_fields nd r).2.2]; exact hs2
    have htr : attTrailing (nd.attempts ++ [stepAtt nd r])
        = attTrailing nd.attempts ++ [stepAtt nd r] := by
      unfold attTrailing
      rw [List.reverse_append]
      simp only [List.reverse_singleton, List.singleton_append, List.takeWhile_cons]
      simp [hsa]
    rw [htr]
    have hcf : (step nd r).consecutiveFailures ≤ nd.consecutiveFailures + 1 := by
      by_cases hd : r.isDeliveryAttempt <;> simp [step, hs2, hd]
    simp only [List.length_append, List.length_singleton]
    omega

/-- The current consecutive-failure counter never exceeds the length of
the open trailing run of stored attempts. -/
theorem buildNumberData_cf_trailing :
    ∀ (rows : List ERow) (e : String × NumberData), e ∈ buildNumberData rows →
      e.2.consecutiveFailures ≤ (attTrailing e.2.attempts).length := by
  intro rows
  induction rows using List.reverseRecOn with
  | nil => simp [buildNumberData]
  | append_singleton t r ih =>
    rw [buildNumberData_append]
    intro e he
    refine upsert_preserves
      (fun e => e.2.consecutiveFailures ≤ (attTrailing e.2.attempts).length)
      r.number (fun nd => step nd r) (buildNumberData t) ih ?_ ?_ e he
    · exact step_cf_le_trailing (initND r.number) r (Nat.zero_le _)
    · exact fun v hv => step_cf_le_trailing v r hv

/-- Membership through stable insertion. -/
theorem mem_insertStable {α : Type} (lt : α → α → Bool) (x y : α) :
    ∀ l : List α, (y ∈ insertStable lt x l ↔ y ∈ x :: l) := by
  intro l
  induction l with
  | nil => simp [insertStable]
  | cons z t ih =>
    by_cases h : lt z x
    · simp only [insertStable, h, if_true, List.mem_cons]
      rw [List.mem_cons] at ih
      tauto
    · have h2 : lt z x = false := by simpa using h
      simp only [insertStable, h2, Bool.false_eq_true, if_false, List.mem_cons]

/-- The comparator sort neither adds nor removes elements. -/
theorem mem_sortJS {α : Type} (lt : α → α → Bool) :
    ∀ (l : List α) (y : α), (y ∈ sortJS lt l ↔ y ∈ l) := by
  intro l
  induction l with
  | nil => intro y; simp [sortJS]
  | cons x t ih =>
    intro y
    rw [sortJS, mem_insertStable]
    simp [ih]

/-- Whenever the trailing segment reaches the threshold, the scan emits a
run carrying that number. -/
theorem runScan_emits_trailing (minC : Nat) (minS : ℚ) (num health : String) (l : List Att)
    (h : minC ≤ (segsAux [] l).2.length) :
    ∃ r ∈ runScan minC minS num health [] l, r.number = num := by
  rw [runScan_eq_segs minC minS num health l []]
  refine ⟨mkRun num health (segsAux [] l).2, ?_, rfl⟩
  apply List.mem_append_right
  rw [if_pos h]
  exact List.mem_singleton_self _

/-- The per-number scan emits a run for its number whenever the trailing
segment reaches the threshold. -/
theorem runsForNumber_emits (minC : Nat) (minS : ℚ) (sums : List Summary)
    (e : String × NumberData) (h : minC ≤ (segsAux [] e.2.attempts).2.length) :
    ∃ r ∈ runsForNumber minC minS sums e, r.number = e.1 := by
  rw [runsForNumber]
  exact runScan_emits_trailing minC minS e.1 _ e.2.attempts h

/-- If every summary reaching the threshold already has a run in the
table, the counter-based second pass leaves the table unchanged. -/
theorem unionPass_noop_general (minC : Nat) (ndl : List (String × NumberData)) :
    ∀ (sums : List Summary) (runs0 : List Run),
      (∀ ns ∈ sums, minC ≤ ns.consecutiveFailures → ∃ r ∈ runs0, r.number = ns.number) →
      unionPass minC ndl sums runs0 = runs0 := by
  intro sums
  induction sums with
  | nil => intro runs0 _; rfl
  | cons ns tl ih =>
    intro runs0 h
    rw [unionPass, List.foldl_cons]
    have hcond : ¬(minC ≤ ns.consecutiveFailures
        ∧ (runs0.find? (fun r => r.number = ns.number)).isNone = true) := by
      rintro ⟨hcf, hnone⟩
      obtain ⟨r, hr, hnum⟩ := h ns (List.mem_cons_self _ _) hcf
      have hsome : (runs0.find? (fun r => decide (r.number = ns.number))).isSome :=
        List.find?_isSome.mpr ⟨r, hr, by simp [hnum]⟩
      cases hf : runs0.find? (fun r => decide (r.number = ns.number)) with
      | none => rw [hf] at hsome; simp at hsome
      | some v => rw [hf] at hnone; simp at hnone
    rw [if_neg hcond]
    exact ih runs0 (fun x hx => h x (List.mem_cons_of_mem _ hx))

/-- Given any minimum threshold of at least 1, the counter-based second
pass of the analysis is dead code: the trailing run of any number whose
current consecutive-failure counter reaches the threshold has length at
least that counter, so the scan has already emitted a run for that
number, and the pass appends nothing. -/
theorem union_pass_adds_nothing :
    ∀ (dp : String → Option DateInfo) (csvRows : List RawRow) (minC : Nat) (minS : ℚ),
      unionPass minC (numberDataOf dp csvRows)
          (sortJS (fun a b => b.totalAttempts < a.totalAttempts) (summariesOf dp csvRows))
          (((numberDataOf dp csvRows).map
            (runsForNumber minC minS
              (sortJS (fun a b => b.totalAttempts < a.totalAttempts)
                (summariesOf dp csvRows)))).flatten)
        = ((numberDataOf dp csvRows).map
            (runsForNumber minC minS
              (sortJS (fun a b => b.totalAttempts < a.totalAttempts)
                (summariesOf dp csvRows)))).flatten := by
  intro dp csvRows minC minS
  apply unionPass_noop_general
  intro ns hns hcf
  rw [mem_sortJS] at hns
  obtain ⟨e, he, rfl⟩ := List.mem_map.mp hns
  have hcf2 : minC ≤ e.2.consecutiveFailures := hcf
  have htr : e.2.consecutiveFailures ≤ (attTrailing e.2.attempts).length :=
    buildNumberData_cf_trailing (engineRows dp csvRows) e he
  have hseg : (segsAux [] e.2.attempts).2 = attTrailing e.2.attempts := by
    simpa [attTrailing] using segsAux_trailing_eq e.2.attempts [] rfl
  have hlen : minC ≤ (segsAux [] e.2.attempts).2.length := by
    rw [hseg]; omega
  obtain ⟨r, hr, hrnum⟩ := runsForNumber_emits minC minS
    (sortJS (fun a b => b.totalAttempts < a.totalAttempts) (summariesOf dp csvRows)) e hlen
  refine ⟨r, ?_, ?_⟩
  · exact List.mem_flatten.mpr
      ⟨runsForNumber minC minS
        (sortJS (fun a b => b.totalAttempts < a.totalAttempts) (summariesOf dp csvRows)) e,
       List.mem_map_of_mem _ he, hr⟩
  · rw [hrnum]
    exact (buildNumberData_number_key (engineRows dp csvRows) e he).symm
